import Mathlib

/-!
Verification of the screen-capture subsystem of `src/src-tauri/src/lib.rs`
(the spotlight repository).

The subsystem is embedded shallowly:

* bytes are `Nat` (a valid byte is `< 256`);
* the base64 transport encoding (`base64::engine::general_purpose::STANDARD`,
  used at lines 90, 100 and 119 of the source) is modelled by an executable
  standard base64 encoder/decoder over `List Nat` / `String`;
* the BGRA→RGBA pixel-buffer conversion of
  `capture_screen_without_overlay_mac` (lines 147-187) is embedded with the
  captured image parameters (`width`, `height`, `bytes_per_row`, `data`)
  passed in explicitly, a Rust slice expression modelled as a partial
  operation (`none` = index-out-of-range panic), and the external PNG
  encoder abstracted as a function parameter;
* the hide-and-restore strategy `capture_screen_without_overlay_windows`
  (lines 191-222) is embedded as a pure transformer of an explicit window
  state together with the list of visibility operations it performs, the
  inner capture's outcome being a parameter that may also be a panic
  (an unwind propagates out of a plain function call);
* the orchestrator `capture_screen_inner` (lines 86-108) and the universal
  fallback `capture_full_display_png` / `capture_full_display_base64`
  (lines 110-120) are embedded with the effectful collaborators
  (screen enumeration, per-screen capture, PNG serialisation) passed in as
  data.
-/

namespace Spotlight

/-- Outcome of running a piece of fallible Rust code: a normal `Ok` value,
a normal `Err` value, or an unwinding panic. -/
inductive RunResult (α : Type) where
  | ok (a : α) : RunResult α
  | err (e : String) : RunResult α
  | panicked : RunResult α
  deriving DecidableEq, Repr

/-! ### Transport encoding: standard base64 (no line wrapping)

Model of `base64::engine::general_purpose::STANDARD.encode`, the RFC 4648
standard alphabet with `=` padding and no line wrapping, together with the
matching strict decoder used to state the round-trip property. -/

/-- The 64 characters of the standard base64 alphabet, in value order. -/
def base64Alphabet : List Char :=
  ['A', 'B', 'C', 'D', 'E', 'F', 'G', 'H', 'I', 'J', 'K', 'L', 'M',
   'N', 'O', 'P', 'Q', 'R', 'S', 'T', 'U', 'V', 'W', 'X', 'Y', 'Z',
   'a', 'b', 'c', 'd', 'e', 'f', 'g', 'h', 'i', 'j', 'k', 'l', 'm',
   'n', 'o', 'p', 'q', 'r', 's', 't', 'u', 'v', 'w', 'x', 'y', 'z',
   '0', '1', '2', '3', '4', '5', '6', '7', '8', '9', '+', '/']

/-- The character encoding a 6-bit value. -/
def sextetToChar (n : Nat) : Char := base64Alphabet.getD n 'A'

/-- The 6-bit value of an alphabet character. -/
def charToSextet (c : Char) : Option Nat :=
  base64Alphabet.findIdx? (fun x => x = c)

/-- Standard base64 encoding of a byte list, three bytes to four characters,
with `=` padding for a final group of one or two bytes. -/
def base64EncodeChunks : List Nat → List Char
  | b0 :: b1 :: b2 :: rest =>
      sextetToChar (b0 / 4) ::
      sextetToChar (b0 % 4 * 16 + b1 / 16) ::
      sextetToChar (b1 % 16 * 4 + b2 / 64) ::
      sextetToChar (b2 % 64) ::
      base64EncodeChunks rest
  | [b0, b1] =>
      [sextetToChar (b0 / 4), sextetToChar (b0 % 4 * 16 + b1 / 16),
       sextetToChar (b1 % 16 * 4), '=']
  | [b0] =>
      [sextetToChar (b0 / 4), sextetToChar (b0 % 4 * 16), '=', '=']
  | [] => []

/-- The transport encoding step: `general_purpose::STANDARD.encode`. -/
def base64Encode (bs : List Nat) : String := String.mk (base64EncodeChunks bs)

/-- Strict standard base64 decoding of a character list. -/
def base64DecodeChars : List Char → Option (List Nat)
  | c0 :: c1 :: c2 :: c3 :: rest =>
      match charToSextet c0, charToSextet c1 with
      | some s0, some s1 =>
          if c2 = '=' then
            if c3 = '=' then
              if rest = [] then some [s0 * 4 + s1 / 16] else none
            else none
          else
            match charToSextet c2 with
            | some s2 =>
                if c3 = '=' then
                  if rest = [] then
                    some [s0 * 4 + s1 / 16, s1 % 16 * 16 + s2 / 4]
                  else none
                else
                  match charToSextet c3, base64DecodeChars rest with
                  | some s3, some tail =>
                      some ((s0 * 4 + s1 / 16) :: (s1 % 16 * 16 + s2 / 4) ::
                            (s2 % 4 * 64 + s3) :: tail)
                  | _, _ => none
            | none => none
      | _, _ => none
  | [] => some []
  | _ => none

/-- Strict standard base64 decoding of a string. -/
def base64Decode (s : String) : Option (List Nat) := base64DecodeChars s.data

/-! ### Pixel buffer converter (`capture_screen_without_overlay_mac`) -/

/-- The Rust slice expression `&data[off..off + len]`: `some` of the slice
when the range is within bounds, `none` when indexing would panic. -/
def rowSlice (data : List Nat) (off len : Nat) : Option (List Nat) :=
  if off + len ≤ data.length then some ((data.drop off).take len) else none

/-- The per-row channel permutation of lines 165-171: for every 4-byte pixel
`[b, g, r, a]` of the source row write `[r, g, b, a]` to the destination row
(`dst_px[0] = src_px[2]; dst_px[1] = src_px[1]; dst_px[2] = src_px[0];
dst_px[3] = src_px[3]`).  `chunks_exact` ignores a trailing group shorter
than 4, so the zipped loop leaves the corresponding destination bytes at
their initial value `0`. -/
def bgraToRgba : List Nat → List Nat
  | b :: g :: r :: a :: rest => r :: g :: b :: a :: bgraToRgba rest
  | rest => List.replicate rest.length 0

/-- The row loop of lines 159-172: for each `y < height` slice
`data[y * bytes_per_row .. y * bytes_per_row + width * 4]` and write its
channel-swapped form at destination offset `y * width * 4`.  The destination
offsets are consecutive, so the filled `rgba` vector is the concatenation of
the converted rows.  `none` models an out-of-bounds slice panic. -/
def convRows (width bytes_per_row : Nat) (data : List Nat) :
    Nat → Option (List Nat)
  | 0 => some []
  | h + 1 =>
      match convRows width bytes_per_row data h,
            rowSlice data (h * bytes_per_row) (width * 4) with
      | some prev, some srcRow => some (prev ++ bgraToRgba srcRow)
      | _, _ => none

/-- `capture_screen_without_overlay_mac`, lines 147-187, starting from the
captured image's `width`, `height`, `bytes_per_row` and raw `data` (the
native window/display calls that produce them are outside the conversion
logic the claims are about).  The external PNG encoder of lines 174-185 is
abstracted as the parameter `encode`. -/
def capture_screen_without_overlay_mac
    (encode : Nat → Nat → List Nat → Except String (List Nat))
    (width height bytes_per_row : Nat) (data : List Nat) :
    RunResult (List Nat) :=
  if data.length < bytes_per_row * height then
    RunResult.err "Unexpected pixel buffer length"
  else
    match convRows width bytes_per_row data height with
    | none => RunResult.panicked
    | some rgba =>
        match encode width height rgba with
        | Except.ok png => RunResult.ok png
        | Except.error e => RunResult.err e

/-- The packed pixel data of the source buffer: the concatenation of the
`width * 4` leading bytes of each of the `height` rows (stride padding
dropped).  Used to state the channel-swap round-trip claim. -/
def pixelRows (width bytes_per_row : Nat) (data : List Nat) : Nat → List Nat
  | 0 => []
  | h + 1 =>
      pixelRows width bytes_per_row data h ++
        (data.drop (h * bytes_per_row)).take (width * 4)

/-! ### Universal fallback and orchestrator -/

/-- A captured raw image, reduced to the outcome of its `to_png`
serialisation (the only use the fallback makes of it). -/
structure Image where
  to_png : Except String (List Nat)

/-- A display known to the `screenshots` library, reduced to the outcome of
its `capture` call. -/
structure Screen where
  capture : Except String Image

/-- `capture_full_display_png`, lines 110-116: enumerate screens, take the
first, capture it, serialise to PNG.  `screens` is the outcome of
`Screen::all()` with errors already rendered to strings. -/
def capture_full_display_png (screens : Except String (List Screen)) :
    Except String (List Nat) := do
  let ss ← screens
  match ss.head? with
  | none => Except.error "No screens found"
  | some s => do
      let image ← s.capture
      image.to_png

/-- `capture_full_display_base64`, lines 118-120. -/
def capture_full_display_base64 (screens : Except String (List Screen)) :
    Except String String :=
  (capture_full_display_png screens).map base64Encode

/-- `capture_screen_inner`, lines 86-108: try the platform-specific
exclusion strategy; on `Ok` return its PNG base64-encoded, on `Err` log and
fall through to `capture_full_display_base64`.  `platform` is the outcome of
the compiled-in platform strategy (`capture_screen_without_overlay_mac` or
`capture_screen_without_overlay_windows`). -/
def capture_screen_inner (platform : Except String (List Nat))
    (screens : Except String (List Screen)) : Except String String :=
  match platform with
  | Except.ok png_bytes => Except.ok (base64Encode png_bytes)
  | Except.error _ => capture_full_display_base64 screens

/-! ### Hide-and-restore strategy (`capture_screen_without_overlay_windows`) -/

/-- The observable state of the application window. -/
structure Window where
  visible : Bool
  focused : Bool
  deriving DecidableEq, Repr

/-- A visibility mutation performed on the window. -/
inductive WinOp where
  | hideOp : WinOp
  | showOp : WinOp
  | focusOp : WinOp
  deriving DecidableEq, Repr

/-- `capture_screen_without_overlay_windows`, lines 191-222, as a transformer
of the window state: it returns the final window state, the strategy's own
outcome, and the list of visibility operations performed, given the initial
window state and the outcome `cap` of the inner `capture_full_display_png()`
call (which may panic; the function is straight-line, so an unwind
propagates immediately).  The native `is_visible`/`hide`/`show`/`set_focus`
calls are modelled as succeeding: `show`/`set_focus` errors are logged only
in the source, and an `is_visible`/`hide` error aborts before any of the
behaviour the claims describe. -/
def capture_screen_without_overlay_windows (w : Window)
    (cap : RunResult (List Nat)) :
    Window × RunResult (List Nat) × List WinOp :=
  let was_visible := w.visible
  if was_visible then
    let hidden : Window := { w with visible := false }
    match cap with
    | RunResult.panicked => (hidden, RunResult.panicked, [WinOp.hideOp])
    | r =>
        let restored : Window := { hidden with visible := true, focused := true }
        (restored, r, [WinOp.hideOp, WinOp.showOp, WinOp.focusOp])
  else
    (w, cap, [])

/-! ### Helper lemmas: base64 alphabet -/

theorem charToSextet_sextetToChar_fin :
    ∀ s : Fin 64, charToSextet (sextetToChar s.val) = some s.val := by decide

theorem charToSextet_sextetToChar {s : Nat} (h : s < 64) :
    charToSextet (sextetToChar s) = some s :=
  charToSextet_sextetToChar_fin ⟨s, h⟩

theorem sextetToChar_mem (n : Nat) : sextetToChar n ∈ base64Alphabet := by
  unfold sextetToChar
  rcases Nat.lt_or_ge n base64Alphabet.length with h | h
  · rw [List.getD_eq_getElem _ _ h]
    exact List.getElem_mem h
  · rw [List.getD_eq_default _ _ h]
    decide

theorem sextetToChar_ne_pad (n : Nat) : sextetToChar n ≠ '=' := by
  intro heq
  have hmem := sextetToChar_mem n
  rw [heq] at hmem
  exact absurd hmem (by decide)

theorem sextetToChar_ne_newline (n : Nat) : sextetToChar n ≠ '\n' := by
  intro heq
  have hmem := sextetToChar_mem n
  rw [heq] at hmem
  exact absurd hmem (by decide)

theorem mem_base64EncodeChunks :
    ∀ (bs : List Nat) (c : Char), c ∈ base64EncodeChunks bs →
      (∃ n, c = sextetToChar n) ∨ c = '='
  | [], c, hc => by simp [base64EncodeChunks] at hc
  | [b0], c, hc => by
      simp only [base64EncodeChunks, List.mem_cons, List.mem_singleton,
        List.not_mem_nil, or_false] at hc
      rcases hc with h | h | h | h
      · exact Or.inl ⟨b0 / 4, h⟩
      · exact Or.inl ⟨b0 % 4 * 16, h⟩
      · exact Or.inr h
      · exact Or.inr h
  | [b0, b1], c, hc => by
      simp only [base64EncodeChunks, List.mem_cons, List.mem_singleton,
        List.not_mem_nil, or_false] at hc
      rcases hc with h | h | h | h
      · exact Or.inl ⟨b0 / 4, h⟩
      · exact Or.inl ⟨b0 % 4 * 16 + b1 / 16, h⟩
      · exact Or.inl ⟨b1 % 16 * 4, h⟩
      · exact Or.inr h
  | b0 :: b1 :: b2 :: rest, c, hc => by
      simp only [base64EncodeChunks, List.mem_cons] at hc
      rcases hc with h | h | h | h | h
      · exact Or.inl ⟨b0 / 4, h⟩
      · exact Or.inl ⟨b0 % 4 * 16 + b1 / 16, h⟩
      · exact Or.inl ⟨b1 % 16 * 4 + b2 / 64, h⟩
      · exact Or.inl ⟨b2 % 64, h⟩
      · exact mem_base64EncodeChunks rest c h

/-! ### Helper lemmas: base64 decoding of encoded chunks -/

theorem base64DecodeChars_pad2 {c0 c1 : Char} {s0 s1 : Nat}
    (h0 : charToSextet c0 = some s0) (h1 : charToSextet c1 = some s1) :
    base64DecodeChars [c0, c1, '=', '='] = some [s0 * 4 + s1 / 16] := by
  simp [base64DecodeChars, h0, h1]

theorem base64DecodeChars_pad1 {c0 c1 c2 : Char} {s0 s1 s2 : Nat}
    (h0 : charToSextet c0 = some s0) (h1 : charToSextet c1 = some s1)
    (h2 : charToSextet c2 = some s2) (hc2 : c2 ≠ '=') :
    base64DecodeChars [c0, c1, c2, '='] =
      some [s0 * 4 + s1 / 16, s1 % 16 * 16 + s2 / 4] := by
  simp [base64DecodeChars, h0, h1, h2, hc2]

theorem base64DecodeChars_full {c0 c1 c2 c3 : Char} {rest : List Char}
    {s0 s1 s2 s3 : Nat} {tail : List Nat}
    (h0 : charToSextet c0 = some s0) (h1 : charToSextet c1 = some s1)
    (h2 : charToSextet c2 = some s2) (h3 : charToSextet c3 = some s3)
    (hc2 : c2 ≠ '=') (hc3 : c3 ≠ '=')
    (hrest : base64DecodeChars rest = some tail) :
    base64DecodeChars (c0 :: c1 :: c2 :: c3 :: rest) =
      some ((s0 * 4 + s1 / 16) :: (s1 % 16 * 16 + s2 / 4) ::
            (s2 % 4 * 64 + s3) :: tail) := by
  simp [base64DecodeChars, h0, h1, h2, h3, hc2, hc3, hrest]

theorem base64_decode_encode_chunks :
    ∀ bs : List Nat, (∀ b ∈ bs, b < 256) →
      base64DecodeChars (base64EncodeChunks bs) = some bs
  | [], _ => rfl
  | [b0], h => by
      have hb0 : b0 < 256 := h b0 (by simp)
      have e := base64DecodeChars_pad2
        (charToSextet_sextetToChar (show b0 / 4 < 64 by omega))
        (charToSextet_sextetToChar (show b0 % 4 * 16 < 64 by omega))
      rw [show base64EncodeChunks [b0] =
        [sextetToChar (b0 / 4), sextetToChar (b0 % 4 * 16), '=', '='] from rfl, e]
      simp only [Option.some.injEq, List.cons.injEq, and_true]
      omega
  | [b0, b1], h => by
      have hb0 : b0 < 256 := h b0 (by simp)
      have hb1 : b1 < 256 := h b1 (by simp)
      have e := base64DecodeChars_pad1
        (charToSextet_sextetToChar (show b0 / 4 < 64 by omega))
        (charToSextet_sextetToChar (show b0 % 4 * 16 + b1 / 16 < 64 by omega))
        (charToSextet_sextetToChar (show b1 % 16 * 4 < 64 by omega))
        (sextetToChar_ne_pad _)
      rw [show base64EncodeChunks [b0, b1] =
        [sextetToChar (b0 / 4), sextetToChar (b0 % 4 * 16 + b1 / 16),
         sextetToChar (b1 % 16 * 4), '='] from rfl, e]
      simp only [Option.some.injEq, List.cons.injEq, and_true]
      constructor <;> omega
  | b0 :: b1 :: b2 :: rest, h => by
      have hb0 : b0 < 256 := h b0 (by simp)
      have hb1 : b1 < 256 := h b1 (by simp)
      have hb2 : b2 < 256 := h b2 (by simp)
      have hrest : ∀ b ∈ rest, b < 256 := fun b hb => h b (by simp [hb])
      have e := base64DecodeChars_full
        (charToSextet_sextetToChar (show b0 / 4 < 64 by omega))
        (charToSextet_sextetToChar (show b0 % 4 * 16 + b1 / 16 < 64 by omega))
        (charToSextet_sextetToChar (show b1 % 16 * 4 + b2 / 64 < 64 by omega))
        (charToSextet_sextetToChar (show b2 % 64 < 64 by omega))
        (sextetToChar_ne_pad _) (sextetToChar_ne_pad _)
        (base64_decode_encode_chunks rest hrest)
      rw [show base64EncodeChunks (b0 :: b1 :: b2 :: rest) =
        sextetToChar (b0 / 4) :: sextetToChar (b0 % 4 * 16 + b1 / 16) ::
        sextetToChar (b1 % 16 * 4 + b2 / 64) :: sextetToChar (b2 % 64) ::
        base64EncodeChunks rest from rfl, e]
      simp only [Option.some.injEq, List.cons.injEq, and_true]
      refine ⟨by omega, by omega, by omega⟩

/-! ### Helper lemmas: pixel conversion -/

theorem bgraToRgba_length : ∀ l : List Nat, (bgraToRgba l).length = l.length
  | b :: g :: r :: a :: rest => by
      simp only [bgraToRgba, List.length_cons, bgraToRgba_length rest]
  | [] => rfl
  | [x] => rfl
  | [x, y] => rfl
  | [x, y, z] => rfl

theorem bgraToRgba_involutive :
    ∀ l : List Nat, 4 ∣ l.length → bgraToRgba (bgraToRgba l) = l
  | [], _ => rfl
  | [x], h => by simp at h
  | [x, y], h => by simp at h; omega
  | [x, y, z], h => by simp at h; omega
  | b :: g :: r :: a :: rest, h => by
      have hrest : 4 ∣ rest.length := by
        simp only [List.length_cons] at h
        omega
      simp only [bgraToRgba, bgraToRgba_involutive rest hrest]

theorem bgraToRgba_append :
    ∀ l₁ l₂ : List Nat, 4 ∣ l₁.length →
      bgraToRgba (l₁ ++ l₂) = bgraToRgba l₁ ++ bgraToRgba l₂
  | [], _, _ => by simp [bgraToRgba]
  | [x], _, h => by simp at h
  | [x, y], _, h => by simp at h; omega
  | [x, y, z], _, h => by simp at h; omega
  | b :: g :: r :: a :: rest, l₂, h => by
      have hrest : 4 ∣ rest.length := by
        simp only [List.length_cons] at h
        omega
      rw [show (b :: g :: r :: a :: rest) ++ l₂ =
        b :: g :: r :: a :: (rest ++ l₂) from rfl]
      rw [show bgraToRgba (b :: g :: r :: a :: (rest ++ l₂)) =
        r :: g :: b :: a :: bgraToRgba (rest ++ l₂) from rfl]
      rw [bgraToRgba_append rest l₂ hrest]
      rfl

theorem rowSlice_eq {data : List Nat} {off len : Nat} {s : List Nat}
    (h : rowSlice data off len = some s) :
    s = (data.drop off).take len ∧ off + len ≤ data.length := by
  unfold rowSlice at h
  split at h
  · exact ⟨(Option.some.injEq _ _ ▸ h).symm, by assumption⟩
  · exact absurd h (by simp)

theorem rowSlice_length {data : List Nat} {off len : Nat} {s : List Nat}
    (h : rowSlice data off len = some s) : s.length = len := by
  obtain ⟨rfl, hle⟩ := rowSlice_eq h
  simp only [List.length_take, List.length_drop]
  omega

theorem convRows_length (width bpr : Nat) (data : List Nat) :
    ∀ (h : Nat) (r : List Nat),
      convRows width bpr data h = some r → r.length = h * (width * 4) := by
  intro h
  induction h with
  | zero =>
      intro r hr
      cases hr
      simp
  | succ n ih =>
      intro r hr
      rcases hc : convRows width bpr data n with _ | prev
      · rw [convRows, hc] at hr
        exact absurd hr (by simp)
      · rcases hs : rowSlice data (n * bpr) (width * 4) with _ | srcRow
        · rw [convRows, hc, hs] at hr
          exact absurd hr (by simp)
        · rw [convRows, hc, hs] at hr
          simp only [Option.some.injEq] at hr
          subst hr
          have h1 := ih prev hc
          have h2 := rowSlice_length hs
          simp only [List.length_append, bgraToRgba_length, h1, h2,
            Nat.succ_mul]

theorem convRows_some_of_bounds (width bpr : Nat) (data : List Nat)
    (hstride : width * 4 ≤ bpr) :
    ∀ h : Nat, h * bpr ≤ data.length →
      ∃ r, convRows width bpr data h = some r := by
  intro h
  induction h with
  | zero => exact fun _ => ⟨[], rfl⟩
  | succ n ih =>
      intro hle
      have hmul : (n + 1) * bpr = n * bpr + bpr := Nat.succ_mul n bpr
      have hn : n * bpr ≤ data.length := by omega
      obtain ⟨prev, hprev⟩ := ih hn
      have hrow : rowSlice data (n * bpr) (width * 4) =
          some ((data.drop (n * bpr)).take (width * 4)) := by
        unfold rowSlice
        rw [if_pos (by omega)]
      refine ⟨prev ++ bgraToRgba ((data.drop (n * bpr)).take (width * 4)), ?_⟩
      rw [convRows, hprev, hrow]

/-! ### Claim theorems -/

/-- C1: for the hide-and-restore strategy, a window that is initially
visible is visible and focused again after the strategy returns, both when
the inner full-display capture succeeds (`ok`) and when it fails (`err`);
in both outcomes the post-condition visibility equals the pre-condition
visibility. -/
theorem hide_restore_visible_restores (w : Window) (cap : RunResult (List Nat))
    (hvis : w.visible = true)
    (hcap : (∃ p, cap = RunResult.ok p) ∨ ∃ e, cap = RunResult.err e) :
    ((capture_screen_without_overlay_windows w cap).1.visible = true ∧
        (capture_screen_without_overlay_windows w cap).1.focused = true) ∧
      (capture_screen_without_overlay_windows w cap).1.visible = w.visible := by
  rcases hcap with ⟨p, rfl⟩ | ⟨e, rfl⟩ <;>
    simp [capture_screen_without_overlay_windows, hvis]

/-- Witness for C1 at a concrete initially visible, unfocused window and a
successful inner capture. -/
theorem hide_restore_visible_restores_witness :
    (((capture_screen_without_overlay_windows (Window.mk true false)
          (RunResult.ok [7])).1.visible = true ∧
        (capture_screen_without_overlay_windows (Window.mk true false)
          (RunResult.ok [7])).1.focused = true) ∧
      (capture_screen_without_overlay_windows (Window.mk true false)
          (RunResult.ok [7])).1.visible = (Window.mk true false).visible) :=
  hide_restore_visible_restores (Window.mk true false) (RunResult.ok [7]) rfl
    (Or.inl ⟨[7], rfl⟩)

/-- C2: whenever the captured pixel buffer is strictly shorter than
`bytes_per_row * height`, `capture_screen_without_overlay_mac` fails with
the buffer-too-short error, for every possible PNG encoder — so no
converted buffer is emitted and no encoding is attempted. -/
theorem buffer_too_short_fails
    (encode : Nat → Nat → List Nat → Except String (List Nat))
    (width height bytes_per_row : Nat) (data : List Nat)
    (hshort : data.length < bytes_per_row * height) :
    capture_screen_without_overlay_mac encode width height bytes_per_row data =
      RunResult.err "Unexpected pixel buffer length" := by
  unfold capture_screen_without_overlay_mac
  rw [if_pos hshort]

/-- Witness for C2 at an empty buffer with stride 8 and height 1. -/
theorem buffer_too_short_fails_witness :
    ([] : List Nat).length < 8 * 1 ∧
      capture_screen_without_overlay_mac (fun _ _ rgba => Except.ok rgba)
          2 1 8 [] =
        RunResult.err "Unexpected pixel buffer length" :=
  ⟨by decide,
    buffer_too_short_fails (fun _ _ rgba => Except.ok rgba) 2 1 8 [] (by decide)⟩

/-- C3: for every `width`, `height` and stride `bytes_per_row` with
`bytes_per_row ≥ width * 4` and a source buffer satisfying the length
invariant, the converter produces a buffer of length exactly
`width * height * 4`. -/
theorem converter_output_length (width height bytes_per_row : Nat)
    (data : List Nat) (hstride : width * 4 ≤ bytes_per_row)
    (hlen : bytes_per_row * height ≤ data.length) :
    ∃ rgba, convRows width bytes_per_row data height = some rgba ∧
      rgba.length = width * height * 4 := by
  obtain ⟨r, hr⟩ := convRows_some_of_bounds width bytes_per_row data hstride
    height (by rw [Nat.mul_comm]; exact hlen)
  refine ⟨r, hr, ?_⟩
  rw [convRows_length width bytes_per_row data height r hr]
  ring

/-- Witness for C3 at a 1×1 buffer with tight stride 4. -/
theorem converter_output_length_witness :
    1 * 4 ≤ 4 ∧ 4 * 1 ≤ ([9, 8, 7, 6] : List Nat).length ∧
      ∃ rgba, convRows 1 4 [9, 8, 7, 6] 1 = some rgba ∧
        rgba.length = 1 * 1 * 4 :=
  ⟨by decide, by decide,
    converter_output_length 1 1 4 [9, 8, 7, 6] (by decide) (by decide)⟩

/-- C4: channel-swap round-trip — whenever the conversion loop succeeds,
swapping channels 0 and 2 of every 4-byte pixel of its output reproduces
the original pixel data (the packed `width * 4`-byte rows of the source
buffer) bit for bit. -/
theorem channel_swap_round_trip (width bpr : Nat) (data : List Nat) :
    ∀ (h : Nat) (rgba : List Nat),
      convRows width bpr data h = some rgba →
      bgraToRgba rgba = pixelRows width bpr data h := by
  intro h
  induction h with
  | zero =>
      intro rgba hr
      cases hr
      rfl
  | succ n ih =>
      intro rgba hr
      rcases hc : convRows width bpr data n with _ | prev
      · rw [convRows, hc] at hr
        exact absurd hr (by simp)
      · rcases hs : rowSlice data (n * bpr) (width * 4) with _ | srcRow
        · rw [convRows, hc, hs] at hr
          exact absurd hr (by simp)
        · rw [convRows, hc, hs] at hr
          simp only [Option.some.injEq] at hr
          subst hr
          have hprevlen : 4 ∣ prev.length := by
            rw [convRows_length width bpr data n prev hc]
            exact ⟨n * width, by ring⟩
          have hrowlen : 4 ∣ srcRow.length := by
            rw [rowSlice_length hs]
            exact ⟨width, by ring⟩
          obtain ⟨hseq, _⟩ := rowSlice_eq hs
          rw [bgraToRgba_append prev (bgraToRgba srcRow) hprevlen,
            bgraToRgba_involutive srcRow hrowlen, ih prev hc, hseq]
          rfl

/-- Witness for C4 at a 1×1 buffer. -/
theorem channel_swap_round_trip_witness :
    convRows 1 4 [1, 2, 3, 4] 1 = some [3, 2, 1, 4] ∧
      bgraToRgba [3, 2, 1, 4] = pixelRows 1 4 [1, 2, 3, 4] 1 :=
  ⟨by decide, channel_swap_round_trip 1 4 [1, 2, 3, 4] 1 [3, 2, 1, 4] (by decide)⟩

/-- C5: whenever the platform-specific exclusion strategy returns an error,
the orchestrator's final result equals the result that the universal
fallback alone would have produced for the same display setup. -/
theorem orchestrator_fallback_equiv (e : String)
    (screens : Except String (List Screen)) :
    capture_screen_inner (Except.error e) screens =
      capture_full_display_base64 screens := rfl

/-- C6: the 2×1 source buffer `[10, 20, 30, 255, 40, 50, 60, 255]` in
blue-green-red-alpha order with stride 8 converts to the
red-green-blue-alpha buffer `[30, 20, 10, 255, 60, 50, 40, 255]`. -/
theorem concrete_bgra_conversion :
    convRows 2 8 [10, 20, 30, 255, 40, 50, 60, 255] 1 =
      some [30, 20, 10, 255, 60, 50, 40, 255] := by decide

/-- C7: for every byte sequence, base64-decoding the output of the
transport encoding step reproduces the exact input bytes, and the encoded
string contains no line break. -/
theorem transport_encoding_round_trip (bs : List Nat)
    (hbytes : ∀ b ∈ bs, b < 256) :
    base64Decode (base64Encode bs) = some bs ∧
      '\n' ∉ (base64Encode bs).data := by
  refine ⟨base64_decode_encode_chunks bs hbytes, ?_⟩
  intro hmem
  rcases mem_base64EncodeChunks bs '\n' hmem with ⟨n, hn⟩ | hpad
  · exact sextetToChar_ne_newline n hn.symm
  · exact absurd hpad (by decide)

/-- Witness for C7 at the byte sequence `[1, 2, 3, 4]`. -/
theorem transport_encoding_round_trip_witness :
    (∀ b ∈ ([1, 2, 3, 4] : List Nat), b < 256) ∧
      (base64Decode (base64Encode [1, 2, 3, 4]) = some [1, 2, 3, 4] ∧
        '\n' ∉ (base64Encode [1, 2, 3, 4]).data) :=
  ⟨by decide, transport_encoding_round_trip [1, 2, 3, 4] (by decide)⟩

/-- C8: for a window that is initially hidden, the hide-and-restore
strategy performs no visibility mutation at all (empty operation list, the
window state is unchanged) and its result is exactly the inner capture's
result. -/
theorem hide_restore_hidden_no_mutation (w : Window)
    (cap : RunResult (List Nat)) (hvis : w.visible = false) :
    capture_screen_without_overlay_windows w cap = (w, cap, []) := by
  simp [capture_screen_without_overlay_windows, hvis]

/-- Witness for C8 at a concrete hidden window and a failing inner
capture. -/
theorem hide_restore_hidden_no_mutation_witness :
    capture_screen_without_overlay_windows (Window.mk false true)
        (RunResult.err "boom") =
      (Window.mk false true, RunResult.err "boom", []) :=
  hide_restore_hidden_no_mutation (Window.mk false true)
    (RunResult.err "boom") rfl

/-- C9 counterexample: the strategy is straight-line code, not a scoped
guard — when the inner capture panics, the unwind propagates before
`window.show()` runs, so an initially visible window is left hidden and
the claimed restoration on the panic exit path fails. -/
theorem hide_restore_panic_skips_restore :
    (Window.mk true true).visible = true ∧
      (capture_screen_without_overlay_windows (Window.mk true true)
          RunResult.panicked).1.visible = false := by decide

/-- C9 (amended): the hide-and-restore strategy restores the window's prior
visibility on every non-unwinding exit path — inner capture success and
inner capture failure; a panic raised during the capture step propagates
before restoration. -/
theorem hide_restore_restores_unless_panic (w : Window)
    (cap : RunResult (List Nat)) (hcap : cap ≠ RunResult.panicked) :
    (capture_screen_without_overlay_windows w cap).1.visible = w.visible := by
  cases cap with
  | ok p =>
      cases hvis : w.visible <;>
        simp [capture_screen_without_overlay_windows, hvis]
  | err e =>
      cases hvis : w.visible <;>
        simp [capture_screen_without_overlay_windows, hvis]
  | panicked => exact absurd rfl hcap

/-- Witness for the amended C9 at a visible window and a successful inner
capture. -/
theorem hide_restore_restores_unless_panic_witness :
    (RunResult.ok ([] : List Nat) ≠ RunResult.panicked) ∧
      (capture_screen_without_overlay_windows (Window.mk true true)
          (RunResult.ok [])).1.visible = (Window.mk true true).visible :=
  ⟨by decide,
    hide_restore_restores_unless_panic (Window.mk true true)
      (RunResult.ok []) (by decide)⟩

/-- C10: for every pixel buffer that passes the length guard
`data.length ≥ bytes_per_row * height` and additionally satisfies
`bytes_per_row ≥ width * 4` (which the guard alone does not check), every
source-row slice `data[y * bytes_per_row .. y * bytes_per_row + width * 4]`
with `y < height` stays within the buffer, and the conversion loop returns
without an out-of-bounds panic. -/
theorem conversion_slices_in_bounds (width height bytes_per_row : Nat)
    (data : List Nat)
    (hguard : bytes_per_row * height ≤ data.length)
    (hstride : width * 4 ≤ bytes_per_row) :
    (∀ y, y < height → y * bytes_per_row + width * 4 ≤ data.length) ∧
      ∃ rgba, convRows width bytes_per_row data height = some rgba := by
  constructor
  · intro y hy
    have h1 : y * bytes_per_row + bytes_per_row = (y + 1) * bytes_per_row :=
      (Nat.succ_mul y bytes_per_row).symm
    have h2 : (y + 1) * bytes_per_row ≤ height * bytes_per_row :=
      Nat.mul_le_mul_right bytes_per_row hy
    have h3 : height * bytes_per_row = bytes_per_row * height :=
      Nat.mul_comm height bytes_per_row
    omega
  · exact convRows_some_of_bounds width bytes_per_row data hstride height
      (by rw [Nat.mul_comm]; exact hguard)

/-- Witness for C10 at a 1×1 buffer with tight stride 4. -/
theorem conversion_slices_in_bounds_witness :
    4 * 1 ≤ ([0, 0, 0, 0] : List Nat).length ∧ 1 * 4 ≤ 4 ∧
      ((∀ y, y < 1 → y * 4 + 1 * 4 ≤ ([0, 0, 0, 0] : List Nat).length) ∧
        ∃ rgba, convRows 1 4 [0, 0, 0, 0] 1 = some rgba) :=
  ⟨by decide, by decide,
    conversion_slices_in_bounds 1 1 4 [0, 0, 0, 0] (by decide) (by decide)⟩

end Spotlight
